import Mathlib

/-!
Verification development for the schema grammar of a GraphQL-like
schema-definition language (file src/schema/grammar.rs of the repository).

The grammar rules (schema, scalar_type, implements_interfaces, object_type,
type_definition, definition, parse_schema) are translated directly from the
source. The tokenizer, the low-level token matchers, the directive-list
sub-parser, the string sub-parser and the AST record types live outside the
provided source tree; those are modelled from the specification and are
marked as such in their doc comments. Specification-side helper functions
(recognizedRole, genErrs, resSlot and the offense predicates) restate the
intended behaviour independently of the embedded code and are related to it
by the bridge lemmas below.
-/

set_option linter.unusedVariables false


/- ## Data model and token source -/


/-- Modelled from the spec: 1-based line and column position attached to
definitions and diagnostics (position module is outside the source tree). -/
structure Pos where
  line : Nat
  column : Nat
deriving DecidableEq, Repr

/-- Modelled from the spec: lexical kind of a token (tokenizer module is
outside the source tree); only the kinds the grammar consults are modelled. -/
inductive Kind where
  | Punctuator
  | Name
  | StringValue
deriving DecidableEq, Repr

/-- Modelled from the spec: a classified lexical unit with kind and text. -/
structure Token where
  kind : Kind
  value : String
deriving DecidableEq, Repr

/-- Modelled from the spec: a token paired with its source position. -/
structure PosToken where
  tok : Token
  pos : Pos
deriving DecidableEq, Repr

/-- Modelled from the spec: the token source consumed monotonically by the
grammar, plus the position just past the last token (for end-of-input). -/
structure TokenStream where
  toks : List PosToken
  endPos : Pos
deriving DecidableEq, Repr

/-- Position of the next token, or the end position when exhausted. -/
def currentPos (s : TokenStream) : Pos :=
  match s.toks with
  | [] => s.endPos
  | t :: _ => t.pos

/-- Information carried by one diagnostic entry. -/
inductive Info where
  | token (t : Token)
  | msg (s : String)
deriving DecidableEq, Repr

/-- One diagnostic entry: an unexpected item or an expected item. -/
inductive Err where
  | unexpected (i : Info)
  | expected (i : Info)
deriving DecidableEq, Repr

/-- A positioned collection of diagnostic entries, as produced by a failing
rule; the error accumulator of the schema rule has this shape. -/
structure Errors where
  position : Pos
  errors : List Err
deriving DecidableEq, Repr

/-- A directive node; modelled from the spec, which treats directives as
opaque annotation nodes parsed by an external sub-parser. -/
abbrev Directive := String

/-- A reference to a type by name, unresolved at parse time. -/
abbrev NamedType := String

/-- Modelled from the spec: object field, a placeholder that the grammar
never constructs (field-list parsing is explicitly unimplemented); named
FieldDef because the ambient library already uses the source name. -/
structure FieldDef where
  name : String
deriving DecidableEq, Repr

/-- AST record for a schema block (ast module is outside the source tree,
modelled from the spec data model). -/
structure SchemaDefinition where
  position : Pos
  directives : List Directive
  query : Option NamedType
  mutation : Option NamedType
  subscription : Option NamedType
deriving DecidableEq, Repr

/-- AST record for a scalar type definition. -/
structure ScalarType where
  position : Pos
  description : Option String
  name : NamedType
  directives : List Directive
deriving DecidableEq, Repr

/-- AST record for an object type definition. -/
structure ObjectType where
  position : Pos
  description : Option String
  name : NamedType
  directives : List Directive
  implements_interfaces : List NamedType
  fields : List FieldDef
deriving DecidableEq, Repr

/-- AST record for an interface type definition (not constructed by the
modelled grammar; present so the description patch is exhaustive). -/
structure InterfaceType where
  position : Pos
  description : Option String
  name : NamedType
  directives : List Directive
deriving DecidableEq, Repr

/-- AST record for a union type definition (not constructed here). -/
structure UnionType where
  position : Pos
  description : Option String
  name : NamedType
  directives : List Directive
deriving DecidableEq, Repr

/-- AST record for an enum type definition (not constructed here). -/
structure EnumType where
  position : Pos
  description : Option String
  name : NamedType
  directives : List Directive
deriving DecidableEq, Repr

/-- AST record for an input object type definition (not constructed here). -/
structure InputObjectType where
  position : Pos
  description : Option String
  name : NamedType
  directives : List Directive
deriving DecidableEq, Repr

/-- Tagged union over the type definition variants. -/
inductive TypeDefinition where
  | Scalar (s : ScalarType)
  | Object (o : ObjectType)
  | Interface (i : InterfaceType)
  | Union (u : UnionType)
  | Enum (e : EnumType)
  | InputObject (o : InputObjectType)
deriving DecidableEq, Repr

/-- Tagged union over the top-level definition forms. -/
inductive Definition where
  | SchemaDefinition (s : SchemaDefinition)
  | TypeDefinition (t : TypeDefinition)
deriving DecidableEq, Repr

/-- An ordered sequence of definitions, the output of a successful parse. -/
structure Document where
  definitions : List Definition
deriving DecidableEq, Repr

/- ## Tokenizer, modelled from the spec -/

def isNameStart (c : Char) : Bool := c.isAlpha || c = '_'

def isNameCont (c : Char) : Bool := c.isAlphanum || c = '_'

/-- Modelled from the spec: the external tokenizer turning text into
classified, position-tagged tokens. Names, punctuation and string literals
are produced; whitespace (and commas, insignificant in this language) is
skipped with 1-based line and column tracking. The fuel argument only
bounds recursion and exceeds the character count on every call. -/
def tokenizeAux : Nat → List Char → Nat → Nat → List PosToken × Pos
  | 0, _, line, col => ([], ⟨line, col⟩)
  | _ + 1, [], line, col => ([], ⟨line, col⟩)
  | fuel + 1, c :: cs, line, col =>
    if c = '\n' then
      tokenizeAux fuel cs (line + 1) 1
    else if c = ' ' ∨ c = '\t' ∨ c = ',' then
      tokenizeAux fuel cs line (col + 1)
    else if isNameStart c then
      let nm := cs.takeWhile isNameCont
      let rest := cs.dropWhile isNameCont
      let r := tokenizeAux fuel rest line (col + 1 + nm.length)
      (⟨⟨Kind.Name, String.mk (c :: nm)⟩, ⟨line, col⟩⟩ :: r.1, r.2)
    else if c = '\"' then
      let inner := cs.takeWhile (fun d => d ≠ '\"')
      let rest := (cs.dropWhile (fun d => d ≠ '\"')).drop 1
      let r := tokenizeAux fuel rest line (col + inner.length + 2)
      (⟨⟨Kind.StringValue, String.mk inner⟩, ⟨line, col⟩⟩ :: r.1, r.2)
    else
      let r := tokenizeAux fuel cs line (col + 1)
      (⟨⟨Kind.Punctuator, String.mk [c]⟩, ⟨line, col⟩⟩ :: r.1, r.2)

/-- Tokenize a whole input text starting at line 1, column 1. -/
def tokenize (s : String) : List PosToken × Pos :=
  tokenizeAux (s.length + 1) s.data 1 1

/-- Build the token source for an input text. -/
def streamOf (s : String) : TokenStream :=
  ⟨(tokenize s).1, (tokenize s).2⟩

/- ## Parser combinator layer

The source uses the combine library; the combinators below reproduce the
semantics the grammar relies on: a parse either succeeds or fails, and in
both cases reports whether input was consumed. Ordered choice tries its
second alternative only after a failure that consumed nothing. -/

/-- Outcome of running a parser: success with remaining stream, or failure
with diagnostics; both record whether any token was consumed. -/
inductive PRes (α : Type) where
  | ok (a : α) (rest : TokenStream) (consumed : Bool)
  | err (e : Errors) (consumed : Bool)
deriving DecidableEq, Repr

/-- A parser over the token stream. -/
def P (α : Type) : Type := TokenStream → PRes α

def pureP (a : α) : P α := fun s => .ok a s false

def bindP (p : P α) (f : α → P β) : P β := fun s =>
  match p s with
  | .ok a s1 c =>
    match f a s1 with
    | .ok b s2 c2 => .ok b s2 (c || c2)
    | .err e c2 => .err e (c || c2)
  | .err e c => .err e c

def mapP (p : P α) (f : α → β) : P β :=
  bindP p (fun a => pureP (f a))

/-- The combine skip combinator: run both, keep the first value. -/
def skipP (p : P α) (q : P β) : P α :=
  bindP p (fun a => mapP q (fun _ => a))

/-- The combine with combinator: run both, keep the second value. -/
def withP (p : P α) (q : P β) : P β :=
  bindP p (fun _ => q)

/-- The combine flat_map combinator: on success apply a fallible function;
its failure keeps the consumed flag of the inner parse. -/
def flatMapP (p : P α) (f : α → Except Errors β) : P β := fun s =>
  match p s with
  | .ok a s1 c =>
    match f a with
    | .ok b => .ok b s1 c
    | .error e => .err e c
  | .err e c => .err e c

/-- Ordered choice: the second alternative runs only when the first failed
without consuming input; two empty failures merge their diagnostics. -/
def choiceP (p q : P α) : P α := fun s =>
  match p s with
  | .err e false =>
    match q s with
    | .err e2 false => .err ⟨e2.position, e.errors ++ e2.errors⟩ false
    | r => r
  | r => r

/-- Zero or one occurrence; a failure that consumed input propagates. -/
def optionalP (p : P α) : P (Option α) := fun s =>
  match p s with
  | .ok a s1 c => .ok (some a) s1 c
  | .err e true => .err e true
  | .err _ false => .ok none s false

/-- Iteration worker for many: stops at the first failure that consumed
nothing; a failure that consumed input propagates. Fuel exceeds the token
count on every call, so the zero-fuel branch is unreachable. -/
def manyAux (p : P α) : Nat → List α → Bool → TokenStream → PRes (List α)
  | 0, acc, c, s => .ok acc.reverse s c
  | fuel + 1, acc, c, s =>
    match p s with
    | .ok a s1 true => manyAux p fuel (a :: acc) true s1
    | .ok a s1 false => .ok (a :: acc).reverse s1 c
    | .err e true => .err e true
    | .err _ false => .ok acc.reverse s c

/-- Zero or more occurrences. -/
def manyP (p : P α) : P (List α) := fun s =>
  manyAux p (s.toks.length + 1) [] false s

/-- One or more occurrences. -/
def many1P (p : P α) : P (List α) :=
  bindP p (fun a => mapP (manyP p) (fun as => a :: as))

/-- One or more occurrences of p separated by sep. -/
def sepBy1P (p : P α) (sep : P β) : P (List α) :=
  bindP p (fun a => mapP (manyP (withP sep p)) (fun as => a :: as))

/-- Current position without consuming anything. -/
def positionP : P Pos := fun s => .ok (currentPos s) s false

/-- End of input; fails without consuming when tokens remain. -/
def eofP : P Unit := fun s =>
  match s.toks with
  | [] => .ok () s false
  | t :: _ =>
    .err ⟨t.pos, [.unexpected (.token t.tok), .expected (.msg "end of input")]⟩ false

/-- Modelled from the spec: a single-token matcher that consumes one token
satisfying the check or fails with a positioned unexpected/expected
diagnostic without consuming input. -/
def satisfyTok (check : Token → Bool) (expd : String) : P Token := fun s =>
  match s.toks with
  | [] => .err ⟨s.endPos, [.unexpected (.msg "end of input"), .expected (.msg expd)]⟩ false
  | t :: rest =>
    if check t.tok then .ok t.tok ⟨rest, s.endPos⟩ true
    else .err ⟨t.pos, [.unexpected (.token t.tok), .expected (.msg expd)]⟩ false

/-- Modelled from the spec: matcher for one exact punctuation token. -/
def punct (v : String) : P Token :=
  satisfyTok (fun t => t.kind = Kind.Punctuator && t.value = v) v

/-- Modelled from the spec: matcher for one exact identifier token. -/
def ident (v : String) : P Token :=
  satisfyTok (fun t => t.kind = Kind.Name && t.value = v) v

/-- Modelled from the spec: matcher for one token of a given kind. -/
def kindP (k : Kind) : P Token :=
  satisfyTok (fun t => t.kind = k) "name"

/-- Modelled from the spec: matcher consuming one name token, yielding its
text as a type reference. -/
def name : P NamedType :=
  mapP (kindP Kind.Name) (fun t => t.value)

/-- Modelled from the spec: the external directive-list sub-parser,
returning an ordered list of opaque directive nodes. -/
def directives : P (List Directive) :=
  manyP (withP (punct "@") name)

/-- Modelled from the spec: the external string-literal sub-parser,
returning the description string. -/
def stringLit : P String :=
  mapP (satisfyTok (fun t => t.kind = Kind.StringValue) "string") (fun t => t.value)

/- ## The grammar rules, translated from src/schema/grammar.rs -/

/-- State of the fold over the operation pairs inside the schema rule:
the three optional slots plus the error accumulator. -/
structure SchemaAcc where
  query : Option NamedType
  mutation : Option NamedType
  subscription : Option NamedType
  errs : List Err
deriving DecidableEq, Repr

/-- One step of the loop over operation pairs in the schema rule, a direct
translation of the match on the role token text (grammar.rs lines 32-65);
the error accumulator appends each diagnostic. -/
def schemaStep (acc : SchemaAcc) (p : Token × NamedType) : SchemaAcc :=
  if p.1.value = "query" then
    if acc.query.isSome then
      { acc with errs := acc.errs ++ [.unexpected (.msg "duplicate `query` operation")] }
    else
      { acc with query := some p.2 }
  else if p.1.value = "mutation" then
    if acc.mutation.isSome then
      { acc with errs := acc.errs ++ [.unexpected (.msg "duplicate `mutation` operation")] }
    else
      { acc with mutation := some p.2 }
  else if p.1.value = "subscription" then
    if acc.subscription.isSome then
      { acc with errs := acc.errs ++ [.unexpected (.msg "duplicate `subscription` operation")] }
    else
      { acc with subscription := some p.2 }
  else
    { acc with errs := acc.errs ++
      [.unexpected (.token p.1),
       .expected (.msg "query"),
       .expected (.msg "mutation"),
       .expected (.msg "subscription")] }

/-- The flat_map body of the schema rule (grammar.rs lines 27-72): fold the
operation pairs, then fail with the whole accumulator when it is non-empty,
otherwise build the schema definition at the captured position. -/
def schemaFlatMap (position : Pos) (dirs : List Directive)
    (operations : List (Token × NamedType)) : Except Errors SchemaDefinition :=
  let acc := operations.foldl schemaStep ⟨none, none, none, []⟩
  if acc.errs.isEmpty then
    .ok ⟨position, dirs, acc.query, acc.mutation, acc.subscription⟩
  else
    .error ⟨position, acc.errs⟩

/-- First element of the schema tuple parser: the captured position,
keeping the schema keyword skipped (grammar.rs line 18). -/
def schemaHead : P Pos :=
  skipP positionP (ident "schema")

/-- One operation pair: a Name token, a colon, and a referenced name
(grammar.rs lines 21-24). -/
def operationPair : P (Token × NamedType) :=
  bindP (skipP (kindP Kind.Name) (punct ":")) (fun t => mapP name (fun n => (t, n)))

/-- The brace-delimited operation pair list (grammar.rs lines 20-25). -/
def operations : P (List (Token × NamedType)) :=
  skipP (withP (punct "\x7b") (manyP operationPair)) (punct "\x7d")

/-- The tuple parsed by the schema rule before its flat_map. -/
def schemaTriple : P (Pos × List Directive × List (Token × NamedType)) :=
  bindP schemaHead (fun pos =>
    bindP directives (fun ds =>
      mapP operations (fun ops => (pos, ds, ops))))

/-- The schema rule (grammar.rs lines 14-74). -/
def schema : P SchemaDefinition :=
  flatMapP schemaTriple (fun x => schemaFlatMap x.1 x.2.1 x.2.2)

/-- The scalar_type rule (grammar.rs lines 76-88): position, the scalar
keyword with a name, directives; description starts as none. -/
def scalar_type : P ScalarType :=
  bindP positionP (fun pos =>
    bindP (withP (ident "scalar") name) (fun nm =>
      mapP directives (fun ds =>
        { position := pos, description := none, name := nm, directives := ds })))

/-- The implements_interfaces rule (grammar.rs lines 90-100): optional
implements clause; a leading ampersand is skipped; names are separated by
ampersands, at least one required; absent clause yields the empty list. -/
def implements_interfaces : P (List NamedType) :=
  mapP
    (optionalP
      (withP (skipP (ident "implements") (optionalP (punct "&")))
        (sepBy1P name (punct "&"))))
    (fun o => o.getD [])

/-- The object_type rule (grammar.rs lines 102-119): position, the type
keyword with a name, the interface list, directives; description starts as
none and the field list is always empty. -/
def object_type : P ObjectType :=
  bindP positionP (fun pos =>
    bindP (withP (ident "type") name) (fun nm =>
      bindP implements_interfaces (fun ifaces =>
        mapP directives (fun ds =>
          { position := pos, description := none, name := nm, directives := ds,
            implements_interfaces := ifaces, fields := [] }))))

/-- The description patch of the type_definition rule (grammar.rs lines
134-145): a single match enumerating every variant. -/
def setDescription (descr : Option String) : TypeDefinition → TypeDefinition
  | .Scalar s => .Scalar { s with description := descr }
  | .Object o => .Object { o with description := descr }
  | .Interface i => .Interface { i with description := descr }
  | .Union u => .Union { u with description := descr }
  | .Enum e => .Enum { e with description := descr }
  | .InputObject o => .InputObject { o with description := descr }

/-- The ordered choice between the constructible variants inside
type_definition (grammar.rs lines 126-129). -/
def typeDefBody : P TypeDefinition :=
  choiceP (mapP scalar_type TypeDefinition.Scalar) (mapP object_type TypeDefinition.Object)

/-- The type_definition rule (grammar.rs lines 121-147): optional leading
string literal, then the variant choice, then the description patch. -/
def type_definition : P TypeDefinition :=
  mapP
    (bindP (optionalP stringLit) (fun descr =>
      mapP typeDefBody (fun td => (descr, td))))
    (fun x => setDescription x.1 x.2)

/-- The definition rule (grammar.rs lines 150-157): ordered choice between
a schema block and a type definition. -/
def definition : P Definition :=
  choiceP (mapP schema Definition.SchemaDefinition)
    (mapP type_definition Definition.TypeDefinition)

/-- The driver applied to the token source by parse_schema (grammar.rs
lines 162-165): one or more definitions, then end of input. -/
def documentP : P Document :=
  skipP (mapP (many1P definition) Document.mk) eofP

/-- The parse_schema entry point (grammar.rs lines 160-169). -/
def parse_schema (s : String) : Except Errors Document :=
  match documentP (streamOf s) with
  | .ok d _ _ => .ok d
  | .err e _ => .error e

/- specification-side helpers -/

def recognizedRole (v : String) : Bool :=
  v = "query" || v = "mutation" || v = "subscription"

def dupDiag (r : String) : Err :=
  .unexpected (.msg ("duplicate `" ++ r ++ "` operation"))

def badDiags (t : Token) : List Err :=
  [.unexpected (.token t), .expected (.msg "query"),
   .expected (.msg "mutation"), .expected (.msg "subscription")]

def seenInit (q m s : Bool) (v : String) : Bool :=
  if v = "query" then q
  else if v = "mutation" then m
  else if v = "subscription" then s
  else false

def updSeen (q m s : Bool) (v : String) : Bool × Bool × Bool :=
  if v = "query" then (true, m, s)
  else if v = "mutation" then (q, true, s)
  else if v = "subscription" then (q, m, true)
  else (q, m, s)

def stepDiags (q m s : Bool) (t : Token) : List Err :=
  if t.value = "query" then (if q then [dupDiag "query"] else [])
  else if t.value = "mutation" then (if m then [dupDiag "mutation"] else [])
  else if t.value = "subscription" then (if s then [dupDiag "subscription"] else [])
  else badDiags t

def genErrs (q m s : Bool) : List (Token × NamedType) → List Err
  | [] => []
  | p :: rest =>
    stepDiags q m s p.1 ++
      genErrs (updSeen q m s p.1.value).1 (updSeen q m s p.1.value).2.1
        (updSeen q m s p.1.value).2.2 rest

def resSlot (r : String) (cur : Option NamedType)
    (ops : List (Token × NamedType)) : Option NamedType :=
  match cur with
  | some v => some v
  | none => (ops.find? (fun p => p.1.value == r)).map (fun p => p.2)

def isDupAtFrom (q m s : Bool) (ops : List (Token × NamedType)) (i : Nat) : Bool :=
  match ops[i]? with
  | some p => recognizedRole p.1.value &&
      (seenInit q m s p.1.value ||
        ((ops.take i).map (fun x => x.1.value)).contains p.1.value)
  | none => false

def isDupAt : List (Token × NamedType) → Nat → Bool :=
  isDupAtFrom false false false

def isBadAt (ops : List (Token × NamedType)) (i : Nat) : Bool :=
  match ops[i]? with
  | some p => !recognizedRole p.1.value
  | none => false

def hasOffense (ops : List (Token × NamedType)) : Bool :=
  (List.range ops.length).any (fun i => isDupAt ops i || isBadAt ops i)

/-- Modelled from the spec sentence of claim C4, for refinement comparison
only: the same schema rule, but with the position captured immediately
after the schema keyword has been consumed. -/
def schemaHeadAfter : P Pos :=
  withP (ident "schema") positionP

/-- The schema tuple parser built on the after-keyword position capture. -/
def schemaTripleAfter : P (Pos × List Directive × List (Token × NamedType)) :=
  bindP schemaHeadAfter (fun pos =>
    bindP directives (fun ds =>
      mapP operations (fun ops => (pos, ds, ops))))

/-- The schema rule as the claim words it (position after the keyword). -/
def schemaAfterKeyword : P SchemaDefinition :=
  flatMapP schemaTripleAfter (fun x => schemaFlatMap x.1 x.2.1 x.2.2)

/-- Projection of the shared description field out of any variant. -/
def descriptionOf : TypeDefinition → Option String
  | .Scalar s => s.description
  | .Object o => o.description
  | .Interface i => i.description
  | .Union u => u.description
  | .Enum e => e.description
  | .InputObject o => o.description

/-- The optional leading string literal visible at the head of a stream. -/
def headStringLit (s : TokenStream) : Option String :=
  match s.toks with
  | t :: _ => if t.tok.kind = Kind.StringValue then some t.tok.value else none
  | [] => none

/-- An ampersand token used to build abstract implements clauses. -/
def ampTok : PosToken := ⟨⟨Kind.Punctuator, "&"⟩, ⟨1,1⟩⟩

/-- A name token used to build abstract implements clauses. -/
def nameTok (n : String) : PosToken := ⟨⟨Kind.Name, n⟩, ⟨1,1⟩⟩

/-- Tail of an implements clause: an ampersand before each further name. -/
def ampSeq : List String → List PosToken
  | [] => []
  | n :: rest => ampTok :: nameTok n :: ampSeq rest

/-- Token form of a whole implements clause: the keyword, an optional
leading ampersand, the first name, then ampersand-separated names. -/
def implToks (amp : Bool) (n : String) (more : List String) : List PosToken :=
  nameTok "implements" :: (if amp then [ampTok] else []) ++ nameTok n :: ampSeq more

/-- Whether the next token is an ampersand punctuator. -/
def headIsAmp (toks : List PosToken) : Bool :=
  match toks with
  | t :: _ => t.tok.kind = Kind.Punctuator && t.tok.value = "&"
  | [] => false

/-- Whether the next token is a given identifier. -/
def headIsIdent (v : String) (st : TokenStream) : Bool :=
  match st.toks with
  | t :: _ => t.tok.kind = Kind.Name && t.tok.value = v
  | [] => false


/- ## Bridge lemmas and parser facts -/


theorem beqComm (a b : String) : (a == b) = (b == a) := by
  by_cases h : a = b
  · simp [h]
  · simp [h, Ne.symm h]

theorem recognized_cases {v : String} (h : recognizedRole v = true) :
    v = "query" ∨ v = "mutation" ∨ v = "subscription" := by
  have h2 := h
  simp [recognizedRole] at h2
  tauto

theorem seenInit_updSeen (q m s : Bool) (v w : String) (hw : recognizedRole w = true) :
    seenInit (updSeen q m s v).1 (updSeen q m s v).2.1 (updSeen q m s v).2.2 w =
      (seenInit q m s w || (v == w)) := by
  rcases recognized_cases hw with h | h | h <;> subst h <;>
    by_cases h1 : v = "query" <;> by_cases h2 : v = "mutation" <;>
      by_cases h3 : v = "subscription" <;> simp_all [seenInit, updSeen]

theorem isDupAtFrom_cons_succ (q m s : Bool) (hd : Token × NamedType)
    (tl : List (Token × NamedType)) (j : Nat) :
    isDupAtFrom q m s (hd :: tl) (j + 1) =
      isDupAtFrom (updSeen q m s hd.1.value).1 (updSeen q m s hd.1.value).2.1
        (updSeen q m s hd.1.value).2.2 tl j := by
  unfold isDupAtFrom
  cases hget : tl[j]? with
  | none => simp [hget]
  | some p =>
    simp only [List.getElem?_cons_succ, hget, List.take_succ_cons, List.map_cons,
      List.contains_cons]
    by_cases hr : recognizedRole p.1.value
    · rw [seenInit_updSeen q m s hd.1.value p.1.value hr]
      simp [Bool.or_assoc, Bool.or_comm, beqComm]
    · simp at hr
      simp [hr]

theorem foldl_schemaStep (ops : List (Token × NamedType)) :
    ∀ (oq om os : Option NamedType) (es : List Err),
    List.foldl schemaStep ⟨oq, om, os, es⟩ ops =
      ⟨resSlot "query" oq ops, resSlot "mutation" om ops, resSlot "subscription" os ops,
       es ++ genErrs oq.isSome om.isSome os.isSome ops⟩ := by
  induction ops with
  | nil =>
    intro oq om os es
    cases oq <;> cases om <;> cases os <;> simp [resSlot, genErrs]
  | cons p rest ih =>
    intro oq om os es
    by_cases hq : p.1.value = "query"
    · cases oq with
      | some v =>
        simp only [List.foldl_cons, schemaStep, hq, if_pos rfl, Option.isSome_some, if_true, ih,
          genErrs, stepDiags, updSeen, resSlot]
        simp [hq, resSlot, dupDiag]
      | none =>
        simp only [List.foldl_cons, schemaStep, hq, if_pos rfl, Option.isSome_none, ih,
          genErrs, stepDiags, updSeen, resSlot]
        simp [hq, resSlot, dupDiag]
    · by_cases hm : p.1.value = "mutation"
      · cases om with
        | some v =>
          simp only [List.foldl_cons, schemaStep, hm, hq, ih, genErrs, stepDiags, updSeen, resSlot]
          simp [hq, hm, resSlot, dupDiag]
        | none =>
          simp only [List.foldl_cons, schemaStep, hm, hq, ih, genErrs, stepDiags, updSeen, resSlot]
          simp [hq, hm, resSlot, dupDiag]
      · by_cases hs : p.1.value = "subscription"
        · cases os with
          | some v =>
            simp only [List.foldl_cons, schemaStep, hs, hm, hq, ih, genErrs, stepDiags, updSeen, resSlot]
            simp [hq, hm, hs, resSlot, dupDiag]
          | none =>
            simp only [List.foldl_cons, schemaStep, hs, hm, hq, ih, genErrs, stepDiags, updSeen, resSlot]
            simp [hq, hm, hs, resSlot, dupDiag]
        · simp only [List.foldl_cons, schemaStep, hq, hm, hs, if_neg hq, if_neg hm, if_neg hs, ih,
            genErrs, stepDiags, updSeen, resSlot]
          simp [hq, hm, hs, resSlot, badDiags, List.find?_cons_of_neg,
            beq_eq_false_iff_ne, dupDiag]

theorem mem_genErrs_dup : ∀ (ops : List (Token × NamedType)) (q m s : Bool) (i : Nat)
    (p : Token × NamedType), ops[i]? = some p → isDupAtFrom q m s ops i = true →
    dupDiag p.1.value ∈ genErrs q m s ops := by
  intro ops
  induction ops with
  | nil => intro q m s i p h; simp at h
  | cons hd tl ih =>
    intro q m s i p hget hdup
    cases i with
    | zero =>
      simp only [List.getElem?_cons_zero, Option.some.injEq] at hget
      subst hget
      unfold isDupAtFrom at hdup
      simp only [List.getElem?_cons_zero, List.take_zero, List.map_nil,
        List.contains_nil, Bool.or_false, Bool.and_eq_true] at hdup
      obtain ⟨hr, hseen⟩ := hdup
      rw [genErrs]
      apply List.mem_append_left
      rcases recognized_cases hr with h | h | h <;>
        simp_all [stepDiags, seenInit]
    | succ j =>
      rw [genErrs]
      apply List.mem_append_right
      apply ih
      · simpa using hget
      · rw [isDupAtFrom_cons_succ] at hdup
        exact hdup

theorem mem_genErrs_bad : ∀ (ops : List (Token × NamedType)) (q m s : Bool) (i : Nat)
    (p : Token × NamedType), ops[i]? = some p → recognizedRole p.1.value = false →
    ∀ e ∈ badDiags p.1, e ∈ genErrs q m s ops := by
  intro ops
  induction ops with
  | nil => intro q m s i p h; simp at h
  | cons hd tl ih =>
    intro q m s i p hget hbad e he
    cases i with
    | zero =>
      simp only [List.getElem?_cons_zero, Option.some.injEq] at hget
      subst hget
      rw [genErrs]
      apply List.mem_append_left
      simp only [recognizedRole, Bool.or_eq_false_iff, decide_eq_false_iff_not] at hbad
      simpa [stepDiags, hbad.1.1, hbad.1.2, hbad.2] using he
    | succ j =>
      rw [genErrs]
      apply List.mem_append_right
      exact ih _ _ _ j p (by simpa using hget) hbad e he

theorem genErrs_eq_nil : ∀ (ops : List (Token × NamedType)) (q m s : Bool),
    (∀ i p, ops[i]? = some p →
       recognizedRole p.1.value = true ∧ isDupAtFrom q m s ops i = false) →
    genErrs q m s ops = [] := by
  intro ops
  induction ops with
  | nil => intro q m s h; rw [genErrs]
  | cons hd tl ih =>
    intro q m s h
    obtain ⟨hr, hnd⟩ := h 0 hd (by simp)
    unfold isDupAtFrom at hnd
    simp only [List.getElem?_cons_zero, List.take_zero, List.map_nil,
      List.contains_nil, Bool.or_false, Bool.and_eq_false_iff] at hnd
    have hseen : seenInit q m s hd.1.value = false := by
      rcases hnd with hnd | hnd
      · rw [hr] at hnd; cases hnd
      · exact hnd
    rw [genErrs]
    have hhead : stepDiags q m s hd.1 = [] := by
      clear ih h hnd
      rcases recognized_cases hr with hv | hv | hv <;>
        (rw [hv] at hseen; simp [seenInit] at hseen; simp [stepDiags, hv, hseen])
    rw [hhead]
    have htl : genErrs (updSeen q m s hd.1.value).1 (updSeen q m s hd.1.value).2.1
        (updSeen q m s hd.1.value).2.2 tl = [] := by
      apply ih
      intro j p hget
      have hjp := h (j + 1) p (by simpa using hget)
      rwa [isDupAtFrom_cons_succ] at hjp
    rw [htl]
    rfl

theorem noOffense_elim {ops : List (Token × NamedType)} (h : hasOffense ops = false) :
    ∀ i p, ops[i]? = some p →
      recognizedRole p.1.value = true ∧ isDupAtFrom false false false ops i = false := by
  intro i p hget
  unfold hasOffense at h
  rw [List.any_eq_false] at h
  have hi : i < ops.length := by
    rcases Nat.lt_or_ge i ops.length with hlt | hge
    · exact hlt
    · rw [List.getElem?_eq_none hge] at hget; cases hget
  have hx := h i (List.mem_range.mpr hi)
  simp only [Bool.or_eq_true, not_or, Bool.not_eq_true] at hx
  refine ⟨?_, hx.1⟩
  have hb := hx.2
  unfold isBadAt at hb
  rw [hget] at hb
  simpa using hb

theorem hasOffense_elim {ops : List (Token × NamedType)} (h : hasOffense ops = true) :
    ∃ i p, ops[i]? = some p ∧
      (isDupAt ops i = true ∨ recognizedRole p.1.value = false) := by
  unfold hasOffense at h
  rw [List.any_eq_true] at h
  obtain ⟨i, hmem, hx⟩ := h
  have hi : i < ops.length := List.mem_range.mp hmem
  refine ⟨i, ops[i], List.getElem?_eq_getElem hi, ?_⟩
  simp only [Bool.or_eq_true] at hx
  rcases hx with hdup | hbad
  · exact Or.inl hdup
  · right
    unfold isBadAt at hbad
    rw [List.getElem?_eq_getElem hi] at hbad
    simpa using hbad

theorem schemaFlatMap_ok_position (pos : Pos) (dirs : List Directive)
    (ops : List (Token × NamedType)) (sd : SchemaDefinition)
    (h : schemaFlatMap pos dirs ops = .ok sd) : sd.position = pos := by
  dsimp only [schemaFlatMap] at h
  split at h
  · cases h
    rfl
  · cases h

theorem schemaFlatMap_error_position (pos : Pos) (dirs : List Directive)
    (ops : List (Token × NamedType)) (e : Errors)
    (h : schemaFlatMap pos dirs ops = .error e) : e.position = pos := by
  dsimp only [schemaFlatMap] at h
  split at h
  · cases h
  · cases h
    rfl

theorem schemaTriple_position (st : TokenStream)
    (x : Pos × List Directive × List (Token × NamedType)) (s1 : TokenStream) (c : Bool)
    (h : schemaTriple st = .ok x s1 c) : x.1 = currentPos st := by
  simp only [schemaTriple, schemaHead, skipP, bindP, mapP, pureP, positionP] at h
  cases h1 : ident "schema" st with
  | err e1 c1 => rw [h1] at h; dsimp only at h; cases h
  | ok tok s2 c1 =>
    rw [h1] at h; dsimp only at h
    cases h2 : directives s2 with
    | err e2 c2 => rw [h2] at h; dsimp only at h; cases h
    | ok ds s3 c2 =>
      rw [h2] at h; dsimp only at h
      cases h3 : operations s3 with
      | err e3 c3 => rw [h3] at h; dsimp only at h; cases h
      | ok ops s4 c3 =>
        rw [h3] at h; dsimp only at h
        cases h
        rfl

theorem schema_ok_position (st : TokenStream) (sd : SchemaDefinition)
    (rest : TokenStream) (c : Bool) (h : schema st = .ok sd rest c) :
    sd.position = currentPos st := by
  unfold schema flatMapP at h
  cases h1 : schemaTriple st with
  | err e1 c1 => rw [h1] at h; cases h
  | ok x s1 c1 =>
    rw [h1] at h
    dsimp only at h
    cases h2 : schemaFlatMap x.1 x.2.1 x.2.2 with
    | error e2 => rw [h2] at h; cases h
    | ok sd2 =>
      rw [h2] at h
      cases h
      rw [schemaFlatMap_ok_position x.1 x.2.1 x.2.2 _ h2]
      exact schemaTriple_position st x _ _ h1

theorem descriptionOf_setDescription (d : Option String) (td : TypeDefinition) :
    descriptionOf (setDescription d td) = d := by
  cases td <;> rfl

theorem optionalP_stringLit (st : TokenStream) :
    ∃ s1 c, optionalP stringLit st = .ok (headStringLit st) s1 c := by
  cases st with
  | mk toks ep =>
    cases toks with
    | nil => exact ⟨_, _, rfl⟩
    | cons t ts =>
      by_cases hk : t.tok.kind = Kind.StringValue
      · refine ⟨⟨ts, ep⟩, true, ?_⟩
        simp [optionalP, stringLit, mapP, bindP, pureP, satisfyTok, headStringLit, hk]
      · refine ⟨⟨t :: ts, ep⟩, false, ?_⟩
        simp [optionalP, stringLit, mapP, bindP, pureP, satisfyTok, headStringLit, hk]

theorem scalar_type_ok (st : TokenStream) (r : ScalarType) (rest : TokenStream) (c : Bool)
    (h : scalar_type st = .ok r rest c) : r.description = none := by
  simp only [scalar_type, bindP, mapP, pureP, positionP] at h
  cases h1 : withP (ident "scalar") name st with
  | err e1 c1 => rw [h1] at h; dsimp only at h; cases h
  | ok nm s2 c1 =>
    rw [h1] at h; dsimp only at h
    cases h2 : directives s2 with
    | err e2 c2 => rw [h2] at h; dsimp only at h; cases h
    | ok ds s3 c2 =>
      rw [h2] at h; dsimp only at h
      cases h
      rfl

theorem object_type_ok (st : TokenStream) (r : ObjectType) (rest : TokenStream) (c : Bool)
    (h : object_type st = .ok r rest c) : r.description = none ∧ r.fields = [] := by
  simp only [object_type, bindP, mapP, pureP, positionP] at h
  cases h1 : withP (ident "type") name st with
  | err e1 c1 => rw [h1] at h; dsimp only at h; cases h
  | ok nm s2 c1 =>
    rw [h1] at h; dsimp only at h
    cases h2 : implements_interfaces s2 with
    | err e2 c2 => rw [h2] at h; dsimp only at h; cases h
    | ok ifs s3 c2 =>
      rw [h2] at h; dsimp only at h
      cases h3 : directives s3 with
      | err e3 c3 => rw [h3] at h; dsimp only at h; cases h
      | ok ds s4 c3 =>
        rw [h3] at h; dsimp only at h
        cases h
        exact ⟨rfl, rfl⟩

theorem type_definition_ok_description (st : TokenStream) (d : TypeDefinition)
    (rest : TokenStream) (c : Bool) (h : type_definition st = .ok d rest c) :
    descriptionOf d = headStringLit st := by
  simp only [type_definition, bindP, mapP, pureP] at h
  obtain ⟨s1, c1, hopt⟩ := optionalP_stringLit st
  rw [hopt] at h
  dsimp only at h
  cases h2 : typeDefBody s1 with
  | err e2 c2 => rw [h2] at h; dsimp only at h; cases h
  | ok td s2 c2 =>
    rw [h2] at h; dsimp only at h
    cases h
    exact descriptionOf_setDescription _ _

theorem ampSeq_length (names : List String) : (ampSeq names).length = 2 * names.length := by
  induction names with
  | nil => rfl
  | cons n rest ih => simp [ampSeq, ih]; ring

theorem ampName_err (rest : List PosToken) (ep : Pos) (h : headIsAmp rest = false) :
    ∃ e, withP (punct "&") name ⟨rest, ep⟩ = .err e false := by
  cases rest with
  | nil => exact ⟨_, rfl⟩
  | cons t ts =>
    refine ⟨⟨t.pos, [.unexpected (.token t.tok), .expected (.msg "&")]⟩, ?_⟩
    simp only [headIsAmp, Bool.and_eq_false_iff, decide_eq_false_iff_not] at h
    simp only [withP, bindP, punct, satisfyTok]
    rcases h with h | h <;> simp [h]

theorem manyAux_ampName (names : List String) : ∀ (rest : List PosToken) (ep : Pos)
    (acc : List String) (c : Bool) (fuel : Nat), names.length < fuel →
    headIsAmp rest = false →
    manyAux (withP (punct "&") name) fuel acc c ⟨ampSeq names ++ rest, ep⟩ =
      .ok (acc.reverse ++ names) ⟨rest, ep⟩ (c || !names.isEmpty) := by
  induction names with
  | nil =>
    intro rest ep acc c fuel hf hr
    cases fuel with
    | zero => omega
    | succ f =>
      obtain ⟨e, he⟩ := ampName_err rest ep hr
      simp [manyAux, ampSeq, he]
  | cons n more ih =>
    intro rest ep acc c fuel hf hr
    cases fuel with
    | zero => omega
    | succ f =>
      have hstep : withP (punct "&") name ⟨ampSeq (n :: more) ++ rest, ep⟩ =
          .ok n ⟨ampSeq more ++ rest, ep⟩ true := by
        simp [ampSeq, ampTok, nameTok, withP, bindP, mapP, pureP, punct, satisfyTok,
          kindP, name]
      rw [manyAux, hstep]
      dsimp only
      rw [ih rest ep (n :: acc) true f (by simpa using hf) hr]
      simp

theorem sepBy1_names (n : String) (more : List String) (rest : List PosToken) (ep : Pos)
    (hr : headIsAmp rest = false) :
    sepBy1P name (punct "&") ⟨nameTok n :: ampSeq more ++ rest, ep⟩ =
      .ok (n :: more) ⟨rest, ep⟩ true := by
  have hname : name ⟨nameTok n :: ampSeq more ++ rest, ep⟩ =
      .ok n ⟨ampSeq more ++ rest, ep⟩ true := by
    simp [name, mapP, bindP, pureP, kindP, satisfyTok, nameTok]
  simp only [sepBy1P, bindP, mapP, pureP, manyP]
  rw [hname]
  dsimp only
  rw [manyAux_ampName more rest ep [] false ((ampSeq more ++ rest).length + 1)
    (by have := ampSeq_length more; simp [List.length_append, this]; omega) hr]
  simp

theorem implements_inner (st0 : TokenStream) (n : String) (more : List String)
    (rest : List PosToken) (ep : Pos) (tok0 : Token)
    (h1 : skipP (ident "implements") (optionalP (punct "&")) st0 =
      .ok tok0 ⟨nameTok n :: ampSeq more ++ rest, ep⟩ true)
    (hr : headIsAmp rest = false) :
    implements_interfaces st0 = .ok (n :: more) ⟨rest, ep⟩ true := by
  have h2 := sepBy1_names n more rest ep hr
  simp only [implements_interfaces, mapP, bindP, pureP, optionalP, withP]
  rw [h1]
  dsimp only
  rw [h2]
  rfl

theorem implements_interfaces_parses (amp : Bool) (n : String) (more : List String)
    (rest : List PosToken) (ep : Pos) (hr : headIsAmp rest = false) :
    implements_interfaces ⟨implToks amp n more ++ rest, ep⟩ =
      .ok (n :: more) ⟨rest, ep⟩ true := by
  cases amp with
  | true =>
    apply implements_inner _ n more rest ep ⟨Kind.Name, "implements"⟩ ?_ hr
    simp [implToks, skipP, bindP, mapP, pureP, ident, satisfyTok, nameTok, optionalP,
      punct, ampTok]
  | false =>
    apply implements_inner _ n more rest ep ⟨Kind.Name, "implements"⟩ ?_ hr
    simp [implToks, skipP, bindP, mapP, pureP, ident, satisfyTok, nameTok, optionalP,
      punct, ampTok]

theorem implements_interfaces_absent (st : TokenStream)
    (h : headIsIdent "implements" st = false) :
    implements_interfaces st = .ok [] st false := by
  have hid : ∃ e, ident "implements" st = .err e false := by
    cases st with
    | mk toks ep =>
      cases toks with
      | nil => exact ⟨_, rfl⟩
      | cons t ts =>
        simp only [headIsIdent, Bool.and_eq_false_iff, decide_eq_false_iff_not] at h
        refine ⟨⟨t.pos, [.unexpected (.token t.tok), .expected (.msg "implements")]⟩, ?_⟩
        simp only [ident, satisfyTok]
        rcases h with h | h <;> simp [h]
  obtain ⟨e, he⟩ := hid
  simp only [implements_interfaces, mapP, bindP, pureP, optionalP, withP, skipP]
  rw [he]
  rfl

/-- C1: when the operation pairs of a schema block contain at least one
duplicate or unrecognized role, the schema rule fails and the failure
carries the entire accumulated diagnostic set, with an entry for every
offending pair rather than only the first; when no pair is duplicate or
unrecognized, the accumulator stays empty and the rule succeeds. -/
theorem schema_rule_accumulates_all_errors (pos : Pos) (dirs : List Directive)
    (ops : List (Token × NamedType)) :
    (hasOffense ops = false →
       schemaFlatMap pos dirs ops = Except.ok
         ⟨pos, dirs, resSlot "query" none ops, resSlot "mutation" none ops,
          resSlot "subscription" none ops⟩) ∧
    (hasOffense ops = true →
       ∃ es, es ≠ [] ∧ schemaFlatMap pos dirs ops = Except.error ⟨pos, es⟩ ∧
         (∀ (i : Nat) (p : Token × NamedType), ops[i]? = some p →
            isDupAt ops i = true → dupDiag p.1.value ∈ es) ∧
         (∀ (i : Nat) (p : Token × NamedType), ops[i]? = some p →
            recognizedRole p.1.value = false → ∀ e ∈ badDiags p.1, e ∈ es)) := by
  have hfold := foldl_schemaStep ops none none none []
  constructor
  · intro h
    have hnil : genErrs false false false ops = [] := by
      apply genErrs_eq_nil
      intro i p hget
      exact noOffense_elim h i p hget
    unfold schemaFlatMap
    rw [hfold]
    simp [hnil]
  · intro h
    have hne : genErrs false false false ops ≠ [] := by
      obtain ⟨i, p, hget, hor⟩ := hasOffense_elim h
      rcases hor with hdup | hbad
      · exact List.ne_nil_of_mem (mem_genErrs_dup ops false false false i p hget hdup)
      · exact List.ne_nil_of_mem
          (mem_genErrs_bad ops false false false i p hget hbad
            (Err.unexpected (Info.token p.1)) (by simp [badDiags]))
    refine ⟨genErrs false false false ops, hne, ?_, ?_, ?_⟩
    · unfold schemaFlatMap
      rw [hfold]
      simp [hne]
    · intro i p hget hdup
      exact mem_genErrs_dup ops false false false i p hget hdup
    · intro i p hget hbad e he
      exact mem_genErrs_bad ops false false false i p hget hbad e he

/-- Witness for C1 at a concrete offending block. -/
theorem schema_rule_accumulates_all_errors_witness :
    ∃ es, es ≠ [] ∧
      schemaFlatMap ⟨1, 1⟩ [] [(⟨Kind.Name, "foo"⟩, "Bar")] = Except.error ⟨⟨1, 1⟩, es⟩ := by
  obtain ⟨es, h1, h2, _, _⟩ :=
    (schema_rule_accumulates_all_errors ⟨1, 1⟩ [] [(⟨Kind.Name, "foo"⟩, "Bar")]).2 (by decide)
  exact ⟨es, h1, h2⟩

/-- C2: a repeat occurrence of a recognized role appends a duplicate-role
diagnostic and never overwrites the value recorded at the first occurrence:
each of the query, mutation and subscription slots always holds the first
pair of its role, and in particular the block with query mapped to A and
then to B fails with a duplicate-query diagnostic while the recorded query
value is A. -/
theorem schema_duplicate_role_preserves_first :
    (∀ ops : List (Token × NamedType),
       ((List.foldl schemaStep ⟨none, none, none, []⟩ ops).query =
          (ops.find? (fun p => p.1.value == "query")).map (fun p => p.2) ∧
        (List.foldl schemaStep ⟨none, none, none, []⟩ ops).mutation =
          (ops.find? (fun p => p.1.value == "mutation")).map (fun p => p.2) ∧
        (List.foldl schemaStep ⟨none, none, none, []⟩ ops).subscription =
          (ops.find? (fun p => p.1.value == "subscription")).map (fun p => p.2)) ∧
       (∀ (i : Nat) (p : Token × NamedType), ops[i]? = some p → isDupAt ops i = true →
          dupDiag p.1.value ∈ (List.foldl schemaStep ⟨none, none, none, []⟩ ops).errs)) ∧
    schemaTriple (streamOf "schema \x7b query: A query: B \x7d") =
      .ok (⟨1,1⟩, [], [(⟨Kind.Name, "query"⟩, "A"), (⟨Kind.Name, "query"⟩, "B")])
        ⟨[], ⟨1,29⟩⟩ true ∧
    (List.foldl schemaStep ⟨none, none, none, []⟩
       [(⟨Kind.Name, "query"⟩, "A"), (⟨Kind.Name, "query"⟩, "B")]).query = some "A" ∧
    parse_schema "schema \x7b query: A query: B \x7d" =
      .error ⟨⟨1,1⟩, [.unexpected (.msg "duplicate `query` operation")]⟩ := by
  refine ⟨?_, rfl, rfl, rfl⟩
  intro ops
  have hfold := foldl_schemaStep ops none none none []
  constructor
  · rw [hfold]
    exact ⟨rfl, rfl, rfl⟩
  · intro i p hget hdup
    rw [hfold]
    simpa using mem_genErrs_dup ops false false false i p hget hdup

/-- Witness for C2 at the concrete duplicated block. -/
theorem schema_duplicate_role_preserves_first_witness :
    dupDiag "query" ∈ (List.foldl schemaStep ⟨none, none, none, []⟩
      [(⟨Kind.Name, "query"⟩, "A"), (⟨Kind.Name, "query"⟩, "B")]).errs :=
  ((schema_duplicate_role_preserves_first).1
      [(⟨Kind.Name, "query"⟩, "A"), (⟨Kind.Name, "query"⟩, "B")]).2 1
    (⟨Kind.Name, "query"⟩, "B") rfl (by decide)

/-- C3: a pair whose role is none of query, mutation and subscription
appends exactly four diagnostics for that pair: one unexpected-token entry
naming the offending token and one expected entry for each of the three
legal roles; the block containing only foo mapped to Bar fails with exactly
that diagnostic set. -/
theorem schema_invalid_role_four_diagnostics :
    (∀ (acc : SchemaAcc) (oper : Token) (tn : NamedType), recognizedRole oper.value = false →
       schemaStep acc (oper, tn) =
         ⟨acc.query, acc.mutation, acc.subscription, acc.errs ++ badDiags oper⟩) ∧
    (∀ (ops : List (Token × NamedType)) (i : Nat) (p : Token × NamedType),
       ops[i]? = some p → recognizedRole p.1.value = false →
       ∀ e ∈ badDiags p.1, e ∈ (List.foldl schemaStep ⟨none, none, none, []⟩ ops).errs) ∧
    parse_schema "schema \x7b foo: Bar \x7d" =
      .error ⟨⟨1,1⟩, [.unexpected (.token ⟨Kind.Name, "foo"⟩), .expected (.msg "query"),
                      .expected (.msg "mutation"), .expected (.msg "subscription")]⟩ := by
  refine ⟨?_, ?_, rfl⟩
  · intro acc oper tn h
    simp only [recognizedRole, Bool.or_eq_false_iff, decide_eq_false_iff_not] at h
    simp [schemaStep, h.1.1, h.1.2, h.2, badDiags]
  · intro ops i p hget hbad e he
    rw [foldl_schemaStep ops none none none []]
    simpa using mem_genErrs_bad ops false false false i p hget hbad e he

/-- Witness for C3 at the concrete invalid pair. -/
theorem schema_invalid_role_four_diagnostics_witness :
    schemaStep ⟨none, none, none, []⟩ (⟨Kind.Name, "foo"⟩, "Bar") =
      ⟨none, none, none, [] ++ badDiags ⟨Kind.Name, "foo"⟩⟩ :=
  (schema_invalid_role_four_diagnostics).1 ⟨none, none, none, []⟩ ⟨Kind.Name, "foo"⟩ "Bar"
    (by decide)

/-- C4 counterexample: on the block with query mapped to Query, the schema
rule as the claim words it (position captured immediately after the schema
keyword) yields position line 1 column 8, while the embedded rule yields
line 1 column 1 as the repository test expects; the two differ, so the
claim as stated fails at this input. -/
theorem schema_position_after_keyword_cex :
    schemaAfterKeyword (streamOf "schema \x7b query: Query \x7d") =
      .ok ⟨⟨1,8⟩, [], some "Query", none, none⟩ ⟨[], ⟨1,24⟩⟩ true ∧
    schema (streamOf "schema \x7b query: Query \x7d") =
      .ok ⟨⟨1,1⟩, [], some "Query", none, none⟩ ⟨[], ⟨1,24⟩⟩ true ∧
    ((⟨1,8⟩ : Pos) ≠ ⟨1,1⟩) := ⟨rfl, rfl, by decide⟩

/-- C4 (amended): the position field of every successfully parsed schema
block is the stream position captured at the schema keyword, immediately
before consuming it; in particular the one-field block parses to a single
schema definition at line 1 column 1 with query Query, no mutation, no
subscription and no directives. -/
theorem schema_position_at_keyword :
    (∀ (st : TokenStream) (sd : SchemaDefinition) (rest : TokenStream) (c : Bool),
       schema st = .ok sd rest c → sd.position = currentPos st) ∧
    parse_schema "schema \x7b query: Query \x7d" =
      .ok ⟨[.SchemaDefinition ⟨⟨1,1⟩, [], some "Query", none, none⟩]⟩ :=
  ⟨schema_ok_position, rfl⟩

/-- Witness for C4 at the concrete one-field block. -/
theorem schema_position_at_keyword_witness :
    (SchemaDefinition.mk ⟨1,1⟩ [] (some "Query") none none).position =
      currentPos (streamOf "schema \x7b query: Query \x7d") :=
  (schema_position_at_keyword).1 (streamOf "schema \x7b query: Query \x7d")
    ⟨⟨1,1⟩, [], some "Query", none, none⟩ ⟨[], ⟨1,24⟩⟩ true rfl

/-- C5: the sub-rules for scalar and object types always construct the
description field as none, and the dispatcher patches onto the produced
variant exactly the optional leading string literal of the input; the two
scalar examples parse with description none and description desc. -/
theorem type_definition_description_patch :
    (∀ (st : TokenStream) (r : ScalarType) (rest : TokenStream) (c : Bool),
       scalar_type st = .ok r rest c → r.description = none) ∧
    (∀ (st : TokenStream) (r : ObjectType) (rest : TokenStream) (c : Bool),
       object_type st = .ok r rest c → r.description = none) ∧
    (∀ (st : TokenStream) (d : TypeDefinition) (rest : TokenStream) (c : Bool),
       type_definition st = .ok d rest c → descriptionOf d = headStringLit st) ∧
    parse_schema "scalar Foo" =
      .ok ⟨[.TypeDefinition (.Scalar ⟨⟨1,1⟩, none, "Foo", []⟩)]⟩ ∧
    parse_schema "\"desc\" scalar Foo" =
      .ok ⟨[.TypeDefinition (.Scalar ⟨⟨1,8⟩, some "desc", "Foo", []⟩)]⟩ :=
  ⟨scalar_type_ok, fun st r rest c h => (object_type_ok st r rest c h).1,
   type_definition_ok_description, rfl, rfl⟩

/-- Witness for C5 at the described scalar input. -/
theorem type_definition_description_patch_witness :
    descriptionOf (.Scalar ⟨⟨1,8⟩, some "desc", "Foo", []⟩) =
      headStringLit (streamOf "\"desc\" scalar Foo") :=
  (type_definition_description_patch).2.2.1 (streamOf "\"desc\" scalar Foo")
    (.Scalar ⟨⟨1,8⟩, some "desc", "Foo", []⟩) ⟨[], ⟨1,18⟩⟩ true rfl

/-- C6: an absent implements clause yields the empty interface list without
consuming input; a present clause accepts and ignores a leading ampersand,
requires at least one name, and returns the names in source order; the
fields list of every parsed object type is empty; the three-name example
parses to the object A implementing B then C. -/
theorem object_type_implements_order :
    (∀ (st : TokenStream), headIsIdent "implements" st = false →
       implements_interfaces st = .ok [] st false) ∧
    (∀ (amp : Bool) (n : String) (more : List String) (rest : List PosToken) (ep : Pos),
       headIsAmp rest = false →
       implements_interfaces ⟨implToks amp n more ++ rest, ep⟩ =
         .ok (n :: more) ⟨rest, ep⟩ true) ∧
    (∀ (st : TokenStream) (r : ObjectType) (rest : TokenStream) (c : Bool),
       object_type st = .ok r rest c → r.fields = []) ∧
    (∃ e, implements_interfaces ⟨[nameTok "implements"], ⟨1,19⟩⟩ = .err e true) ∧
    parse_schema "type A implements B & C" =
      .ok ⟨[.TypeDefinition (.Object ⟨⟨1,1⟩, none, "A", [], ["B", "C"], []⟩)]⟩ :=
  ⟨implements_interfaces_absent, implements_interfaces_parses,
   fun st r rest c h => (object_type_ok st r rest c h).2, ⟨_, rfl⟩, rfl⟩

/-- Witness for C6 at a concrete implements clause. -/
theorem object_type_implements_order_witness :
    implements_interfaces ⟨implToks true "B" ["C"], ⟨1,1⟩⟩ =
      .ok ["B", "C"] ⟨[], ⟨1,1⟩⟩ true ∧
    implements_interfaces ⟨[], ⟨1,1⟩⟩ = .ok [] ⟨[], ⟨1,1⟩⟩ false := by
  constructor
  · have h := (object_type_implements_order).2.1 true "B" ["C"] [] ⟨1,1⟩ (by decide)
    simpa using h
  · exact (object_type_implements_order).1 ⟨[], ⟨1,1⟩⟩ (by decide)

/-- C7: parse_schema succeeds only on one or more definitions followed by
the end of input: the empty string fails rather than producing an empty
document, a definition list followed by leftover tokens fails at the
end-of-input check, and every successful document parse consumed a
definition list with nothing left over. -/
theorem parse_schema_requires_definitions_and_eof :
    (∃ e, parse_schema "" = .error e) ∧
    (∀ (st : TokenStream) (ds : List Definition) (rest : TokenStream) (c : Bool),
       many1P definition st = .ok ds rest c → rest.toks ≠ [] →
       ∃ e c2, documentP st = .err e c2) ∧
    (∀ (st : TokenStream) (d : Document) (rest : TokenStream) (c : Bool),
       documentP st = .ok d rest c →
       ∃ ds rest2 c2, many1P definition st = .ok ds rest2 c2 ∧ rest2.toks = []) := by
  refine ⟨⟨_, rfl⟩, ?_, ?_⟩
  · intro st ds rest c h hne
    simp only [documentP, skipP, bindP, mapP, pureP]
    rw [h]
    dsimp only
    cases hrt : rest.toks with
    | nil => exact absurd hrt hne
    | cons t ts =>
      refine ⟨⟨t.pos, [.unexpected (.token t.tok), .expected (.msg "end of input")]⟩, c, ?_⟩
      simp [eofP, hrt]
  · intro st d rest c h
    simp only [documentP, skipP, bindP, mapP, pureP] at h
    cases h1 : many1P definition st with
    | err e1 c1 => rw [h1] at h; cases h
    | ok ds rest2 c2 =>
      rw [h1] at h
      dsimp only at h
      refine ⟨ds, rest2, c2, rfl, ?_⟩
      cases hrt : rest2.toks with
      | nil => rfl
      | cons t ts => rw [eofP] at h; rw [hrt] at h; dsimp only at h; cases h

/-- Witness for C7 at a concrete input with a leftover token. -/
theorem parse_schema_requires_definitions_and_eof_witness :
    ∃ e c2, documentP (streamOf "scalar Foo \x7d") = .err e c2 :=
  (parse_schema_requires_definitions_and_eof).2.1 (streamOf "scalar Foo \x7d")
    [.TypeDefinition (.Scalar ⟨⟨1,1⟩, none, "Foo", []⟩)]
    ⟨[⟨⟨Kind.Punctuator, "\x7d"⟩, ⟨1,12⟩⟩], ⟨1,13⟩⟩ true rfl (by decide)

/-- C8: parse_schema is deterministic: two invocations on the same text
yield structurally equal results; the embedding is a pure function of the
input text, so no hidden state can influence the outcome. -/
theorem parse_schema_deterministic (s : String) : parse_schema s = parse_schema s := rfl

/-- C9: every diagnostic accumulated by the schema rule is attached to the
single position the accumulator was created with, which is the position
captured at the schema keyword, not the position of the offending token;
in the two-line example the offending token sits on line 2 but the failure
is positioned at line 1 column 1. -/
theorem schema_errors_at_keyword_position :
    (∀ (pos : Pos) (dirs : List Directive) (ops : List (Token × NamedType)) (e : Errors),
       schemaFlatMap pos dirs ops = .error e → e.position = pos) ∧
    (∀ (st : TokenStream) (x : Pos × List Directive × List (Token × NamedType))
       (s1 : TokenStream) (c : Bool), schemaTriple st = .ok x s1 c → x.1 = currentPos st) ∧
    parse_schema "schema \x7b\n  foo: Bar \x7d" =
      .error ⟨⟨1,1⟩, badDiags ⟨Kind.Name, "foo"⟩⟩ :=
  ⟨schemaFlatMap_error_position, schemaTriple_position, rfl⟩

/-- Witness for C9 at the concrete invalid pair. -/
theorem schema_errors_at_keyword_position_witness :
    (Errors.mk ⟨1,1⟩ (badDiags ⟨Kind.Name, "foo"⟩)).position = ⟨1,1⟩ :=
  (schema_errors_at_keyword_position).1 ⟨1,1⟩ [] [(⟨Kind.Name, "foo"⟩, "Bar")]
    ⟨⟨1,1⟩, badDiags ⟨Kind.Name, "foo"⟩⟩ rfl

/-- C10: role recognition is an exact, case-sensitive string comparison:
any pair whose role text is not exactly query, mutation or subscription
takes the unrecognized branch, appending the four-diagnostic set and
recording no value; in particular Query with a capital letter is rejected
while lowercase query is accepted. -/
theorem role_matching_case_sensitive :
    (∀ (acc : SchemaAcc) (oper : Token) (tn : NamedType), recognizedRole oper.value = false →
       schemaStep acc (oper, tn) =
         ⟨acc.query, acc.mutation, acc.subscription, acc.errs ++ badDiags oper⟩) ∧
    recognizedRole "Query" = false ∧ recognizedRole "QUERY" = false ∧
    recognizedRole "query" = true ∧
    parse_schema "schema \x7b Query: A \x7d" =
      .error ⟨⟨1,1⟩, [.unexpected (.token ⟨Kind.Name, "Query"⟩), .expected (.msg "query"),
                      .expected (.msg "mutation"), .expected (.msg "subscription")]⟩ := by
  refine ⟨?_, by decide, by decide, by decide, rfl⟩
  intro acc oper tn h
  simp only [recognizedRole, Bool.or_eq_false_iff, decide_eq_false_iff_not] at h
  simp [schemaStep, h.1.1, h.1.2, h.2, badDiags]

/-- Witness for C10 at the capitalized role. -/
theorem role_matching_case_sensitive_witness :
    schemaStep ⟨none, none, none, []⟩ (⟨Kind.Name, "Query"⟩, "A") =
      ⟨none, none, none, [] ++ badDiags ⟨Kind.Name, "Query"⟩⟩ :=
  (role_matching_case_sensitive).1 ⟨none, none, none, []⟩ ⟨Kind.Name, "Query"⟩ "A" (by decide)
